import Mathlib

/-
Verification of the Ingestion & Repair Pipeline
(AI-Enabled-Data-Cleaning-Tool).

Shallow embedding of the core operations:
  * `IngestionEngine.stream_clean_and_split` (src/core/ingestion.py):
    the splitter consumes the sequence of records produced by the CSV
    reader (each record an ordered list of field strings) and classifies
    every record after the header by field count.
  * `IngestionEngine.merge_and_finalize` (src/core/ingestion.py):
    the clean stream and the optional fixed stream are merged under the
    clean stream's schema.  `pl.scan_csv` and `pl.concat` are lazy, so a
    schema violation in the fixed stream raises only when `sink_parquet`
    executes the plan, outside the inner try; the outer except then
    returns the failure dictionary.  The previous content of the output
    file is never consulted.
  * `IngestionEngine.detect_encoding` (src/core/ingestion.py): the
    outcome of reading the 50KB sample and running charset detection is
    passed in as a value (it is an external effect); the function maps it
    to the returned dictionary.
  * `AIFixer.fix_ragged_row` (src/core/ai_fixer.py): the external
    LLM invocation is passed in as `Except` (error message or response
    text); the cleaning pipeline on the response text is modelled
    character by character over `List Char`, matching Python string and
    regex semantics for the concrete patterns used by the source.
  * The AI-repair preview loop and the Accept & Apply handler
    (src/ui/app.py).
-/

namespace DataCleaner

/-- Counts returned by the splitter: the fields total, good, bad and
expected_cols of the returned dictionary. -/
structure SplitCounts where
  total : Nat
  good : Nat
  bad : Nat
  expected_cols : Nat
deriving DecidableEq

/-- Outcome of `stream_clean_and_split`: either the distinct
empty-file status dictionary or the counts dictionary. -/
inductive SplitOutcome where
  | empty_file : SplitOutcome
  | counts : SplitCounts → SplitOutcome
deriving DecidableEq

/-- The observable result of one run of the splitter: the returned
outcome plus the records written to the clean and quarantine files. -/
structure SplitRun where
  outcome : SplitOutcome
  cleanStream : List (List String)
  quarantineStream : List (List String)
deriving DecidableEq

/-- The data loop of `stream_clean_and_split`: for each row, increment
`total`; if the field count equals `expected_cols` append the row to the
clean file and increment `good`, else append it to the quarantine file
and increment `bad`. -/
def splitLoop (expected_cols : Nat) :
    List (List String) → Nat → Nat → Nat →
    List (List String) → List (List String) →
    Nat × Nat × Nat × List (List String) × List (List String)
  | [], t, g, b, cs, bs => (t, g, b, cs, bs)
  | row :: rest, t, g, b, cs, bs =>
    if row.length = expected_cols then
      splitLoop expected_cols rest (t+1) (g+1) b (cs ++ [row]) bs
    else
      splitLoop expected_cols rest (t+1) g (b+1) cs (bs ++ [row])

/-- `IngestionEngine.stream_clean_and_split`, acting on the list of
records produced by the CSV reader.  An empty file (no header record)
returns the `empty_file` status with nothing written; otherwise the
header is written verbatim to both streams and every subsequent record
is classified by field count against the header's field count. -/
def stream_clean_and_split (records : List (List String)) : SplitRun :=
  match records with
  | [] => ⟨SplitOutcome.empty_file, [], []⟩
  | header :: data =>
    let expected_cols := header.length
    let r := splitLoop expected_cols data 0 0 0 [] []
    ⟨SplitOutcome.counts ⟨r.1, r.2.1, r.2.2.1, expected_cols⟩,
     header :: r.2.2.2.1, header :: r.2.2.2.2⟩

/-- A delimited file on disk: header record plus data records. -/
structure CsvFile where
  header : List String
  rows : List (List String)
deriving DecidableEq

/-- Whether executing the lazy plan over the fixed file succeeds at
sink time.  `pl.scan_csv(fixed_csv_path, schema=schema)` and
`pl.concat` are lazy and raise nothing at construction; the schema
(taken from the clean file: `n` columns, all string-typed) is only
enforced when `sink_parquet` executes the plan.  Execution succeeds iff
the header record and every data record of the fixed file carry exactly
`n` fields; otherwise polars raises a compute error while streaming. -/
abbrev sink_schema_ok (n : Nat) (f : CsvFile) : Prop :=
  f.header.length = n ∧ ∀ r ∈ f.rows, r.length = n

/-- The dictionary returned by `merge_and_finalize`: on success it
carries `True` and the final row count read back from the written
parquet; on an exception the outer handler returns `False` with the
exception's text (the text itself is not modelled) and no row count. -/
structure MergeReport where
  success : Bool
  total_rows : Option Nat
deriving DecidableEq

/-- `IngestionEngine.merge_and_finalize`.  `fixed` is `none` when the
fixed file is absent or has size zero (the Drop strategy passes the path
`""`).  Reading the fixed file is lazy, so the inner try/except around
`pl.scan_csv(fixed, schema=schema)` and the lazy `pl.concat` catches
nothing for non-conforming fixed rows (that handler is dead for this
error): the schema violation surfaces at `df_final.sink_parquet(...)`,
which sits outside the inner try, so the outer except returns the
failure dictionary and no row count.  By then the streaming sink has
already replaced the target file, so no valid parquet remains at the
output path (`none`).  On success `sink_parquet` replaces the output
wholesale and the count is read back from the freshly written file.
`prev`, the previous content of the output path, is never consulted.
Returns the report together with the new output file content. -/
def merge_and_finalize (clean : CsvFile) (fixed : Option CsvFile)
    (prev : Option (List (List String))) :
    MergeReport × Option (List (List String)) :=
  match fixed with
  | none => (⟨true, some clean.rows.length⟩, some clean.rows)
  | some f =>
    if sink_schema_ok clean.header.length f then
      (⟨true, some (clean.rows ++ f.rows).length⟩, some (clean.rows ++ f.rows))
    else
      (⟨false, none⟩, none)

/-- The dictionary returned by `detect_encoding`. -/
structure EncodingReport where
  encoding : String
  confidence : ℚ
  error : Option String
deriving DecidableEq

/-- Python `result['encoding'] or 'utf-8'`: `None` and the empty string
are falsy. -/
def pyOrStr (v : Option String) (d : String) : String :=
  match v with
  | none => d
  | some s => if s = "" then d else s

/-- Python `result['confidence'] or 0.0`: `None` and `0.0` are falsy. -/
def pyOrConf (v : Option ℚ) (d : ℚ) : ℚ :=
  match v with
  | none => d
  | some q => if q = 0 then d else q

/-- `IngestionEngine.detect_encoding`.  The external effect (opening the
file, reading the 50KB sample, running `charset_normalizer.detect`) is
passed in as `read_outcome`: an exception message, or the detector's
`encoding`/`confidence` fields (each possibly `None`).  On an exception
the function returns `utf-8` with confidence `0.0` and the error string;
it has no failing branch. -/
def detect_encoding (read_outcome : Except String (Option String × Option ℚ)) :
    EncodingReport :=
  match read_outcome with
  | Except.error e => ⟨"utf-8", 0, some e⟩
  | Except.ok (enc, conf) => ⟨pyOrStr enc "utf-8", pyOrConf conf 0, none⟩

/-- Does the pattern occur at the head of the text (Python
`str.startswith` / anchored literal match)? -/
def leadsWith : List Char → List Char → Bool
  | [], _ => true
  | _ :: _, [] => false
  | p :: ps, c :: cs => (p == c) && leadsWith ps cs

/-- Case-insensitive anchored match (the `re.IGNORECASE` flag): both
sides are compared lowercased. -/
def matchCI : List Char → List Char → Bool
  | [], _ => true
  | _ :: _, [] => false
  | p :: ps, c :: cs => (p.toLower == c.toLower) && matchCI ps cs

/-- The literal `<think>`. -/
def openThink : List Char := ['<', 't', 'h', 'i', 'n', 'k', '>']

/-- The literal `</think>`. -/
def closeThink : List Char := ['<', '/', 't', 'h', 'i', 'n', 'k', '>']

/-- Scan for the first occurrence of `</think>` and return the suffix
that follows it (the continuation point of the non-greedy regex
`<think>.*?</think>` under `re.DOTALL`). -/
def findClose : List Char → Option (List Char)
  | [] => none
  | c :: cs =>
    if leadsWith closeThink (c :: cs) then some (List.drop 7 cs)
    else findClose cs

/-- Step 1 of the cleaning logic:
`re.sub(r'<think>.*?</think>', '', raw_content, flags=re.DOTALL)`.
At each position, if `<think>` starts here and a `</think>` follows, the
whole block is deleted and scanning resumes after it; an unclosed
`<think>` is left in place. -/
def removeThink : List Char → List Char
  | [] => []
  | c :: cs =>
    if leadsWith openThink (c :: cs) then
      match h : findClose (List.drop 6 cs) with
      | some rest => removeThink rest
      | none => c :: removeThink cs
    else c :: removeThink cs
termination_by s => s.length
decreasing_by
  · have hlen : ∀ s r : List Char, findClose s = some r → r.length ≤ s.length := by
      intro s
      induction s with
      | nil => intro r hr; simp [findClose] at hr
      | cons x xs ih =>
        intro r hr
        by_cases hx : leadsWith closeThink (x :: xs) = true
        · simp only [findClose, hx, if_true, Option.some.injEq] at hr
          subst hr
          have := List.length_drop 7 xs
          simp only [this, List.length_cons]
          omega
        · simp only [findClose, hx, if_false, Bool.false_eq_true] at hr
          have := ih r hr
          simp only [List.length_cons]
          omega
    have h1 := hlen _ _ h
    have h2 := List.length_drop 6 cs
    simp only [List.length_cons]
    omega
  · simp only [List.length_cons]; omega
  · simp only [List.length_cons]; omega

/-- Python `str.replace(pat, '')` for a non-empty pattern `p :: ps`:
delete every non-overlapping occurrence, scanning left to right. -/
def removePat (p : Char) (ps : List Char) : List Char → List Char
  | [] => []
  | c :: cs =>
    if leadsWith (p :: ps) (c :: cs) then
      removePat p ps (List.drop ps.length cs)
    else c :: removePat p ps cs
termination_by s => s.length
decreasing_by
  · have := List.length_drop ps.length cs
    simp only [this, List.length_cons]
    omega
  · simp only [List.length_cons]; omega

/-- The pattern `final answer:` of step 3, lowercased for the
case-insensitive comparison. -/
def faPat : List Char :=
  ['f', 'i', 'n', 'a', 'l', ' ', 'a', 'n', 's', 'w', 'e', 'r', ':']

/-- Python `\s` on the characters the source can encounter (ASCII
whitespace). -/
def pyIsSpace (c : Char) : Bool :=
  c == ' ' || c == '\t' || c == '\n' || c == '\r' || c == '\x0b' || c == '\x0c'

/-- Step 3: `re.sub(r'Final Answer:\s*', '', clean_content,
flags=re.IGNORECASE)`.  At each position, a case-insensitive occurrence
of `Final Answer:` plus the greedy run of whitespace after it is
deleted, and scanning resumes after the match. -/
def removeFinalAnswer : List Char → List Char
  | [] => []
  | c :: cs =>
    if matchCI faPat (c :: cs) then
      removeFinalAnswer (List.dropWhile pyIsSpace (List.drop 12 cs))
    else c :: removeFinalAnswer cs
termination_by s => s.length
decreasing_by
  · have hdw : ∀ l : List Char, (List.dropWhile pyIsSpace l).length ≤ l.length := by
      intro l
      induction l with
      | nil => simp [List.dropWhile]
      | cons x xs ih =>
        simp only [List.dropWhile]
        by_cases hx : pyIsSpace x = true
        · simp only [hx, if_true, List.length_cons]
          omega
        · simp only [hx, if_false, Bool.false_eq_true, List.length_cons]
          omega
    have h1 := hdw (List.drop 12 cs)
    have h2 := List.length_drop 12 cs
    simp only [List.length_cons]
    omega
  · simp only [List.length_cons]; omega

/-- Python `clean_content.split('\n')`: split at every newline, keeping
empty pieces. -/
def splitNL : List Char → List (List Char)
  | [] => [[]]
  | c :: cs =>
    if c = '\n' then [] :: splitNL cs
    else
      match splitNL cs with
      | l :: ls => (c :: l) :: ls
      | [] => [[c]]

/-- Python `line.strip()` (ASCII whitespace at both ends). -/
def pyStrip (s : List Char) : List Char :=
  List.reverse (List.dropWhile pyIsSpace (List.reverse (List.dropWhile pyIsSpace s)))

/-- Steps 1-4 of the cleaning logic applied in source order: strip
`<think>` blocks, then the literals ```` ```csv ```` and ```` ``` ````,
then the `Final Answer:` label, then the literal `\boxed\x7b` and every
`\x7d` character. -/
def cleanContent (raw_content : List Char) : List Char :=
  removePat '\x7d' []
    (removePat '\\' ['b', 'o', 'x', 'e', 'd', '\x7b']
      (removeFinalAnswer
        (removePat '`' ['`', '`']
          (removePat '`' ['`', '`', 'c', 's', 'v']
            (removeThink raw_content)))))

/-- Step 5: the stripped, non-empty lines of the cleaned content
(`[line.strip() for line in clean_content.split('\n') if line.strip()]`). -/
def nonBlankLines (s : List Char) : List (List Char) :=
  ((splitNL s).map pyStrip).filter (fun l => !l.isEmpty)

/-- The sentinel returned when the LLM invocation raises:
`f"AI Error: \x7bstr(e)\x7d"`. -/
def aiErrorSentinel (e : List Char) : List Char :=
  ['A', 'I', ' ', 'E', 'r', 'r', 'o', 'r', ':', ' '] ++ e

/-- `AIFixer.fix_ragged_row`.  The external LLM call is passed in as
`service`: an exception message or the raw response content.  On
success the response is cleaned and the last non-blank line is the
result; if no non-blank line remains the original bad row is returned;
on an exception the sentinel string is returned. -/
def fix_ragged_row (bad_row_str : List Char)
    (service : Except (List Char) (List Char)) : List Char :=
  match service with
  | Except.error e => aiErrorSentinel e
  | Except.ok raw_content =>
    match (nonBlankLines (cleanContent raw_content)).getLast? with
    | none => bad_row_str
    | some final_row => final_row

/-- A response text carrying a corrected row wrapped in all four
artifacts the normalization pipeline strips: a `<think>` reasoning
block, a ```` ```csv ```` code fence, a `Final Answer:` label and a
`\boxed\x7b...\x7d` wrapper (the shape used by the spec's normalization
scenario). -/
def wrapArtifacts (pad row : List Char) : List Char :=
  openThink ++ (pad ++ (closeThink ++ (['\n'] ++
  (['`', '`', '`', 'c', 's', 'v'] ++ (['\n'] ++
  (['F', 'i', 'n', 'a', 'l', ' ', 'A', 'n', 's', 'w', 'e', 'r', ':'] ++ ([' '] ++
  (['\\', 'b', 'o', 'x', 'e', 'd', '\x7b'] ++ (row ++ (['\x7d'] ++ (['\n'] ++
  ['`', '`', '`'])))))))))))

/-- Scan for a case-insensitive occurrence of `Final Answer:` anywhere
in the text. -/
def hasFA : List Char → Bool
  | [] => false
  | c :: cs => matchCI faPat (c :: cs) || hasFA cs

/-- Python `"Error:" in s`. -/
def hasSub (pat : List Char) : List Char → Bool
  | [] => leadsWith pat []
  | c :: cs => leadsWith pat (c :: cs) || hasSub pat cs

/-- One entry of the AI preview list built by the app: the original
raw row paired with the proposed fixed text. -/
structure Proposal where
  original : List Char
  fixed : List Char
deriving DecidableEq

/-- The AI Auto-Fix loop of the app: each quarantined line is stripped;
blank lines and a duplicated header line are skipped; every other line
is sent to the fixer (whose external invocation outcome is carried
alongside the line) and the proposal is appended to the preview list. -/
def buildPreview (header_str : List Char) :
    List (List Char × Except (List Char) (List Char)) → List Proposal
  | [] => []
  | (row, inv) :: rest =>
    let clean_row := pyStrip row
    if clean_row = [] then buildPreview header_str rest
    else if clean_row = header_str then buildPreview header_str rest
    else ⟨clean_row, fix_ragged_row clean_row inv⟩ :: buildPreview header_str rest

/-- The Accept & Apply handler: the fixed file receives the header line
and then the `fixed` text of every proposal except those containing
`Error:` (`if "Error:" in row['fixed']: continue`). -/
def acceptApply (header : List Char) (props : List Proposal) : List (List Char) :=
  header :: (props.filter (fun p => !(hasSub ['E', 'r', 'r', 'o', 'r', ':'] p.fixed))).map
    (fun p => p.fixed)

/-- The conforming stream of 10 rows from the spec's Drop scenario. -/
def dropScenarioClean : CsvFile :=
  ⟨["id", "name", "city"], List.replicate 10 ["a", "b", "c"]⟩

theorem splitLoop_eq (n : Nat) (rows : List (List String)) :
    ∀ t g b cs bs,
    splitLoop n rows t g b cs bs =
      (t + rows.length,
       g + (rows.filter (fun r => decide (r.length = n))).length,
       b + (rows.filter (fun r => !decide (r.length = n))).length,
       cs ++ rows.filter (fun r => decide (r.length = n)),
       bs ++ rows.filter (fun r => !decide (r.length = n))) := by
  induction rows with
  | nil => intro t g b cs bs; simp [splitLoop]
  | cons row rest ih =>
    intro t g b cs bs
    by_cases h : row.length = n
    · have hp : decide (row.length = n) = true := by simp [h]
      rw [splitLoop, if_pos h, ih]
      simp [List.filter_cons, hp, List.append_assoc]
      omega
    · have hp : decide (row.length = n) = false := by simp [h]
      rw [splitLoop, if_neg h, ih]
      simp [List.filter_cons, hp, List.append_assoc]
      omega

theorem length_filter_partition (p : List String → Bool) (l : List (List String)) :
    (l.filter p).length + (l.filter (fun a => !p a)).length = l.length := by
  induction l with
  | nil => simp
  | cons x xs ih =>
    by_cases h : p x = true
    · simp [List.filter_cons, h, ih]
      try omega
    · simp [List.filter_cons, h, ih]
      try omega

/-- C1: for a non-empty input, every data record written to the clean
stream has exactly the header's field count, and every data record
written to the quarantine stream has a different field count. -/
theorem splitter_stream_field_counts (header : List String)
    (data : List (List String)) (row : List String) :
    (row ∈ (stream_clean_and_split (header :: data)).cleanStream.tail →
      row.length = header.length) ∧
    (row ∈ (stream_clean_and_split (header :: data)).quarantineStream.tail →
      row.length ≠ header.length) := by
  simp only [stream_clean_and_split, splitLoop_eq, Nat.zero_add, List.nil_append,
    List.tail_cons]
  constructor
  · intro hm
    have := List.mem_filter.mp hm
    simpa using this.2
  · intro hm
    have := List.mem_filter.mp hm
    simpa using this.2

/-- Witness for C1 at header `[a,b]`, one conforming row `[1,2]` and one
ragged row `[x]`. -/
theorem splitter_stream_field_counts_witness :
    (["1", "2"] : List String).length = (["a", "b"] : List String).length ∧
    (["x"] : List String).length ≠ (["a", "b"] : List String).length :=
  ⟨(splitter_stream_field_counts ["a", "b"] [["1", "2"], ["x"]] ["1", "2"]).1
      (by decide),
   (splitter_stream_field_counts ["a", "b"] [["1", "2"], ["x"]] ["x"]).2
      (by decide)⟩

/-- C2: for a non-empty input the returned counts satisfy
`good + bad = total`, and `total` equals the number of parsed records
minus one (the header). -/
theorem splitter_counts_partition (header : List String)
    (data : List (List String)) (c : SplitCounts)
    (h : (stream_clean_and_split (header :: data)).outcome = SplitOutcome.counts c) :
    c.good + c.bad = c.total ∧ c.total = (header :: data).length - 1 := by
  simp only [stream_clean_and_split, splitLoop_eq, Nat.zero_add, List.nil_append,
    SplitOutcome.counts.injEq] at h
  subst h
  refine ⟨?_, by simp⟩
  simpa using length_filter_partition (fun r => decide (r.length = header.length)) data

/-- Witness for C2: two data rows, one conforming, one ragged. -/
theorem splitter_counts_partition_witness :
    (stream_clean_and_split [["a", "b"], ["1", "2"], ["x"]]).outcome =
      SplitOutcome.counts ⟨2, 1, 1, 2⟩ ∧
    ((1 : Nat) + 1 = 2 ∧ (2 : Nat) = [["a", "b"], ["1", "2"], ["x"]].length - 1) :=
  ⟨by decide,
   splitter_counts_partition ["a", "b"] [["1", "2"], ["x"]] ⟨2, 1, 1, 2⟩ (by decide)⟩

/-- C8: an empty input (no header record) yields the distinct empty-file
outcome and nothing is written to either output stream. -/
theorem splitter_empty_file :
    stream_clean_and_split [] = ⟨SplitOutcome.empty_file, [], []⟩ := rfl

/-- C9: when reading the sample fails, `detect_encoding` returns the
safe default `utf-8` with confidence `0.0` carrying the error as data;
it has no rejecting branch, so detection failure cannot block
ingestion. -/
theorem detect_encoding_read_failure_safe (e : String) :
    detect_encoding (Except.error e) = ⟨"utf-8", 0, some e⟩ := rfl

/-- C5: with an absent or empty approved-fix stream the canonical
dataset is exactly the conforming stream (and the reported count is its
row count); in particular the Drop scenario with 10 conforming rows
yields exactly 10 rows. -/
theorem finalize_without_fixes_is_clean_stream :
    (∀ (clean : CsvFile) (prev : Option (List (List String))),
      merge_and_finalize clean none prev =
        (⟨true, some clean.rows.length⟩, some clean.rows)) ∧
    (merge_and_finalize dropScenarioClean none none).1.total_rows = some 10 :=
  ⟨fun _ _ => rfl, by decide⟩

/-- C6: re-running finalize on the same two input streams reproduces
the same report and the same canonical content — the second run on top
of the first run's output returns exactly the first run's result, for
any prior state of the output file. -/
theorem finalize_idempotent (clean : CsvFile) (fixed : Option CsvFile)
    (prev : Option (List (List String))) :
    merge_and_finalize clean fixed (merge_and_finalize clean fixed prev).2 =
      merge_and_finalize clean fixed prev := rfl

/-- C7: a failed repair invocation for one ragged row becomes the
sentinel proposal `AI Error: ...` in the preview list; the rows before
and after it are still processed (the batch is not aborted); the
sentinel carries the `Error:` marker the Accept & Apply handler tests
for; and no accepted fixed stream ever contains the sentinel text as a
data row. -/
theorem repair_failure_sentinel (header : List Char)
    (pre post : List (List Char × Except (List Char) (List Char)))
    (row e : List Char) (props : List Proposal)
    (h1 : pyStrip row ≠ []) (h2 : pyStrip row ≠ header) :
    buildPreview header (pre ++ (row, Except.error e) :: post) =
      buildPreview header pre ++
        ⟨pyStrip row, aiErrorSentinel e⟩ :: buildPreview header post ∧
    hasSub ['E', 'r', 'r', 'o', 'r', ':'] (aiErrorSentinel e) = true ∧
    aiErrorSentinel e ∉ (acceptApply header props).tail := by
  refine ⟨?_, rfl, ?_⟩
  · induction pre with
    | nil =>
      simp only [List.nil_append, buildPreview]
      rw [if_neg h1, if_neg h2]
      rfl
    | cons q pre' ih =>
      obtain ⟨r, i⟩ := q
      simp only [List.cons_append, buildPreview, List.append_eq]
      by_cases hr1 : pyStrip r = []
      · rw [if_pos hr1, if_pos hr1, ih]
      · rw [if_neg hr1, if_neg hr1]
        by_cases hr2 : pyStrip r = header
        · rw [if_pos hr2, if_pos hr2, ih]
        · rw [if_neg hr2, if_neg hr2, ih, List.cons_append]
  · intro hmem
    simp only [acceptApply, List.tail_cons, List.mem_map] at hmem
    obtain ⟨p, hpf, hfix⟩ := hmem
    have := (List.mem_filter.mp hpf).2
    rw [hfix] at this
    simp only [aiErrorSentinel] at this
    have hbad : hasSub ['E', 'r', 'r', 'o', 'r', ':']
        (['A', 'I', ' ', 'E', 'r', 'r', 'o', 'r', ':', ' '] ++ e) = true := rfl
    rw [hbad] at this
    simp at this

/-- Witness for C7: one ragged row whose invocation raised `m`, and an
accepted batch holding the resulting sentinel proposal. -/
theorem repair_failure_sentinel_witness :
    pyStrip ['x'] ≠ [] ∧ pyStrip ['x'] ≠ ['h'] ∧
    (buildPreview ['h'] [(['x'], Except.error ['m'])] =
      buildPreview ['h'] [] ++
        ⟨pyStrip ['x'], aiErrorSentinel ['m']⟩ :: buildPreview ['h'] [] ∧
    hasSub ['E', 'r', 'r', 'o', 'r', ':'] (aiErrorSentinel ['m']) = true ∧
    aiErrorSentinel ['m'] ∉
      (acceptApply ['h'] [⟨['x'], aiErrorSentinel ['m']⟩]).tail) :=
  ⟨by decide, by decide,
   repair_failure_sentinel ['h'] [] [] ['x'] ['m']
     [⟨['x'], aiErrorSentinel ['m']⟩] (by decide) (by decide)⟩

theorem charFree_append {x : Char} {a b : List Char}
    (ha : ∀ c ∈ a, c ≠ x) (hb : ∀ c ∈ b, c ≠ x) : ∀ c ∈ a ++ b, c ≠ x := by
  intro c hc
  rcases List.mem_append.mp hc with h | h
  · exact ha c h
  · exact hb c h

theorem leadsWith_self_append (p t : List Char) : leadsWith p (p ++ t) = true := by
  induction p with
  | nil => simp [leadsWith]
  | cons c cs ih => simp [leadsWith, ih]

theorem leadsWith_head_ne {p c : Char} (ps cs : List Char) (h : p ≠ c) :
    leadsWith (p :: ps) (c :: cs) = false := by
  simp [leadsWith]
  intro hpc
  exact absurd hpc h

theorem findClose_concat {pad : List Char} (hpad : ∀ c ∈ pad, c ≠ '<')
    (t : List Char) : findClose (pad ++ (closeThink ++ t)) = some t := by
  induction pad with
  | nil =>
    have hcond : leadsWith closeThink ('<' :: (['/', 't', 'h', 'i', 'n', 'k', '>'] ++ t)) =
        true := leadsWith_self_append closeThink t
    rw [List.nil_append]
    show findClose (closeThink ++ t) = some t
    rw [closeThink, List.cons_append, findClose, hcond]
    simp [List.drop]
  | cons p pad' ih =>
    have hp : p ≠ '<' := hpad p (List.mem_cons_self _ _)
    have hcond : leadsWith closeThink (p :: (pad' ++ (closeThink ++ t))) = false := by
      rw [closeThink]
      exact leadsWith_head_ne _ _ (fun hh => hp hh.symm)
    rw [List.cons_append, findClose, hcond]
    simp only [Bool.false_eq_true, if_false]
    exact ih (fun c hc => hpad c (List.mem_cons_of_mem _ hc))

theorem removeThink_no_lt {s : List Char} (hs : ∀ c ∈ s, c ≠ '<') :
    removeThink s = s := by
  induction s with
  | nil => rw [removeThink]
  | cons c cs ih =>
    have hc : c ≠ '<' := hs c (List.mem_cons_self _ _)
    have hcond : leadsWith openThink (c :: cs) = false := by
      rw [openThink]
      exact leadsWith_head_ne _ _ (fun hh => hc hh.symm)
    rw [removeThink, hcond]
    simp only [Bool.false_eq_true, if_false, List.cons.injEq, true_and]
    exact ih (fun x hx => hs x (List.mem_cons_of_mem _ hx))

theorem removeThink_block {pad : List Char} (hpad : ∀ c ∈ pad, c ≠ '<')
    (t : List Char) :
    removeThink (openThink ++ (pad ++ (closeThink ++ t))) = removeThink t := by
  rw [openThink]
  rw [List.cons_append, removeThink]
  have hcond2 : leadsWith openThink
      ('<' :: (['t', 'h', 'i', 'n', 'k', '>'] ++ (pad ++ (closeThink ++ t)))) = true :=
    leadsWith_self_append openThink (pad ++ (closeThink ++ t))
  rw [hcond2, if_pos rfl]
  have hfc : findClose
      (List.drop 6 (['t', 'h', 'i', 'n', 'k', '>'] ++ (pad ++ (closeThink ++ t)))) =
      some t := findClose_concat hpad t
  split
  · next rest h =>
      rw [hfc] at h
      injection h with hh
      rw [hh]
  · next h =>
      rw [hfc] at h
      exact absurd h (by simp)

theorem removePat_no_head {p : Char} {ps s : List Char} (hs : ∀ c ∈ s, c ≠ p) :
    removePat p ps s = s := by
  induction s with
  | nil => rw [removePat]
  | cons c cs ih =>
    have hc : c ≠ p := hs c (List.mem_cons_self _ _)
    have hcond : leadsWith (p :: ps) (c :: cs) = false :=
      leadsWith_head_ne _ _ (fun hh => hc hh.symm)
    rw [removePat, hcond]
    simp only [Bool.false_eq_true, if_false, List.cons.injEq, true_and]
    exact ih (fun x hx => hs x (List.mem_cons_of_mem _ hx))

theorem removePat_skip {p : Char} {ps : List Char} {a : List Char}
    (ha : ∀ c ∈ a, c ≠ p) (b : List Char) :
    removePat p ps (a ++ b) = a ++ removePat p ps b := by
  induction a with
  | nil => simp
  | cons c cs ih =>
    have hc : c ≠ p := ha c (List.mem_cons_self _ _)
    have hcond : leadsWith (p :: ps) (c :: (cs ++ b)) = false :=
      leadsWith_head_ne _ _ (fun hh => hc hh.symm)
    rw [List.cons_append, removePat, hcond]
    simp only [Bool.false_eq_true, if_false, List.cons_append, List.cons.injEq, true_and]
    exact ih (fun x hx => ha x (List.mem_cons_of_mem _ hx))

theorem removePat_hit (p : Char) (ps b : List Char) :
    removePat p ps ((p :: ps) ++ b) = removePat p ps b := by
  rw [List.cons_append, removePat]
  have hcond : leadsWith (p :: ps) (p :: (ps ++ b)) = true :=
    leadsWith_self_append (p :: ps) b
  rw [hcond, if_pos rfl]
  congr 1
  exact List.drop_left ps b

theorem removePat_rb_free (s : List Char) :
    ∀ c ∈ removePat '\x7d' [] s, c ≠ '\x7d' := by
  induction s using removePat.induct '\x7d' [] with
  | case1 => rw [removePat]; simp
  | case2 c cs hlead ih =>
    rw [removePat, hlead, if_pos rfl]
    simpa using ih
  | case3 c cs hlead ih =>
    have hcf : leadsWith ('\x7d' :: []) (c :: cs) = false := by
      simpa using hlead
    rw [removePat, hcf]
    simp only [Bool.false_eq_true, if_false]
    intro x hx
    rcases List.mem_cons.mp hx with hx | hx
    · subst hx
      intro hxx
      subst hxx
      rw [leadsWith] at hcf
      simp [leadsWith] at hcf
    · exact ih x hx

theorem matchCI_head_ne {q c : Char} (qs cs : List Char) (h : q.toLower ≠ c.toLower) :
    matchCI (q :: qs) (c :: cs) = false := by
  simp [matchCI]
  intro hqc
  exact absurd hqc h

theorem hasFA_false_id {s : List Char} (hs : hasFA s = false) :
    removeFinalAnswer s = s := by
  induction s with
  | nil => rw [removeFinalAnswer]
  | cons c cs ih =>
    rw [hasFA, Bool.or_eq_false_iff] at hs
    rw [removeFinalAnswer, hs.1]
    simp only [Bool.false_eq_true, if_false, List.cons.injEq, true_and]
    exact ih hs.2

theorem removeFinalAnswer_skip {a : List Char} (ha : ∀ c ∈ a, c.toLower ≠ 'f')
    (b : List Char) :
    removeFinalAnswer (a ++ b) = a ++ removeFinalAnswer b := by
  induction a with
  | nil => simp
  | cons c cs ih =>
    have hc : c.toLower ≠ 'f' := ha c (List.mem_cons_self _ _)
    have hcond : matchCI faPat (c :: (cs ++ b)) = false := by
      rw [faPat]
      refine matchCI_head_ne _ _ ?_
      have hf : ('f' : Char).toLower = 'f' := by decide
      rw [hf]
      exact fun hh => hc hh.symm
    rw [List.cons_append, removeFinalAnswer, hcond]
    simp only [Bool.false_eq_true, if_false, List.cons_append, List.cons.injEq, true_and]
    exact ih (fun x hx => ha x (List.mem_cons_of_mem _ hx))

theorem removeFinalAnswer_hit (t : List Char) :
    removeFinalAnswer
      (['F', 'i', 'n', 'a', 'l', ' ', 'A', 'n', 's', 'w', 'e', 'r', ':'] ++
        ([' '] ++ (['\\', 'b', 'o', 'x', 'e', 'd', '\x7b'] ++ t))) =
    removeFinalAnswer (['\\', 'b', 'o', 'x', 'e', 'd', '\x7b'] ++ t) := by
  rw [List.cons_append, removeFinalAnswer]
  have hcond : matchCI faPat
      ('F' :: (['i', 'n', 'a', 'l', ' ', 'A', 'n', 's', 'w', 'e', 'r', ':'] ++
        ([' '] ++ (['\\', 'b', 'o', 'x', 'e', 'd', '\x7b'] ++ t)))) = true := rfl
  rw [hcond, if_pos rfl]
  rfl

theorem splitNL_ne_nil (s : List Char) : splitNL s ≠ [] := by
  induction s with
  | nil => simp [splitNL]
  | cons c cs ih =>
    by_cases hc : c = '\n'
    · simp [splitNL, hc]
    · cases h : splitNL cs with
      | nil => exact absurd h ih
      | cons l ls => simp [splitNL, hc, h]

theorem splitNL_cons_newline (s : List Char) :
    splitNL ('\n' :: s) = [] :: splitNL s := by
  simp [splitNL]

theorem splitNL_line {r : List Char} (hr : ∀ c ∈ r, c ≠ '\n') (t : List Char) :
    splitNL (r ++ '\n' :: t) = r :: splitNL t := by
  induction r with
  | nil => simp [splitNL]
  | cons c cs ih =>
    have hc : c ≠ '\n' := hr c (List.mem_cons_self _ _)
    have ih' := ih (fun x hx => hr x (List.mem_cons_of_mem _ hx))
    rw [List.cons_append]
    simp [splitNL, hc, ih']

theorem splitNL_char_free {a : Char} : ∀ {s : List Char}, (∀ c ∈ s, c ≠ a) →
    ∀ l ∈ splitNL s, ∀ c ∈ l, c ≠ a := by
  intro s
  induction s with
  | nil =>
    intro _ l hl
    simp [splitNL] at hl
    subst hl
    simp
  | cons c cs ih =>
    intro hs l hl
    by_cases hc : c = '\n'
    · subst hc
      rw [splitNL_cons_newline] at hl
      rcases List.mem_cons.mp hl with h | h
      · subst h; simp
      · exact ih (fun x hx => hs x (List.mem_cons_of_mem _ hx)) l h
    · cases hsp : splitNL cs with
      | nil => exact absurd hsp (splitNL_ne_nil cs)
      | cons l0 ls =>
        simp only [splitNL, hc, if_false, hsp] at hl
        have ihcs := ih (fun x hx => hs x (List.mem_cons_of_mem _ hx))
        rcases List.mem_cons.mp hl with h | h
        · subst h
          intro x hx
          rcases List.mem_cons.mp hx with h1 | h1
          · rw [h1]; exact hs c (List.mem_cons_self _ _)
          · exact ihcs l0 (hsp ▸ List.mem_cons_self _ _) x h1
        · exact ihcs l (hsp ▸ List.mem_cons_of_mem _ h)

theorem pyStrip_subset {s : List Char} : ∀ c ∈ pyStrip s, c ∈ s := by
  intro c hc
  rw [pyStrip] at hc
  rw [List.mem_reverse] at hc
  have h1 := (List.dropWhile_sublist (l := List.reverse (List.dropWhile pyIsSpace s))
    (p := pyIsSpace)).subset hc
  rw [List.mem_reverse] at h1
  exact (List.dropWhile_sublist (l := s) (p := pyIsSpace)).subset h1

theorem mem_of_getLast_some {α : Type} : ∀ {l : List α} {a : α},
    l.getLast? = some a → a ∈ l := by
  intro l
  induction l with
  | nil => intro a h; simp at h
  | cons c cs ih =>
    intro a h
    cases cs with
    | nil =>
      simp [List.getLast?] at h
      subst h
      exact List.mem_cons_self _ _
    | cons d ds =>
      rw [List.getLast?_cons_cons] at h
      exact List.mem_cons_of_mem _ (ih h)

theorem getLast_none_nil {α : Type} : ∀ {l : List α}, l.getLast? = none → l = [] := by
  intro l h
  cases l with
  | nil => rfl
  | cons c cs =>
    rw [List.getLast?_eq_none_iff] at h
    exact h

theorem removePat_nil (p : Char) (ps : List Char) : removePat p ps [] = [] := by
  rw [removePat]

theorem removePat_f6_on_f3 :
    removePat '`' ['`', '`', 'c', 's', 'v'] ['`', '`', '`'] = ['`', '`', '`'] := by
  simp [removePat, leadsWith]

theorem removePat_f3_all : removePat '`' ['`', '`'] ['`', '`', '`'] = [] := by
  simp [removePat, leadsWith]

theorem splitNL_nil : splitNL [] = [[]] := rfl

theorem pyStrip_nil : pyStrip [] = [] := rfl

theorem c3_clean_eval {pad row : List Char}
    (hpad : ∀ c ∈ pad, c ≠ '<')
    (hlt : ∀ c ∈ row, c ≠ '<')
    (hbt : ∀ c ∈ row, c ≠ '`')
    (hbs : ∀ c ∈ row, c ≠ '\\')
    (hrb : ∀ c ∈ row, c ≠ '\x7d')
    (hfa : hasFA (row ++ (['\x7d'] ++ ['\n'])) = false) :
    cleanContent (wrapArtifacts pad row) = ['\n'] ++ (['\n'] ++ (row ++ ['\n'])) := by
  have h1 : removeThink (wrapArtifacts pad row) =
      ['\n'] ++ (['`', '`', '`', 'c', 's', 'v'] ++ (['\n'] ++
      (['F', 'i', 'n', 'a', 'l', ' ', 'A', 'n', 's', 'w', 'e', 'r', ':'] ++ ([' '] ++
      (['\\', 'b', 'o', 'x', 'e', 'd', '\x7b'] ++ (row ++ (['\x7d'] ++ (['\n'] ++
      ['`', '`', '`'])))))))) := by
    rw [wrapArtifacts, removeThink_block hpad]
    exact removeThink_no_lt
      (charFree_append (by decide) (charFree_append (by decide)
        (charFree_append (by decide) (charFree_append (by decide)
          (charFree_append (by decide) (charFree_append (by decide)
            (charFree_append hlt (charFree_append (by decide)
              (charFree_append (by decide) (by decide))))))))))
  have h2 : removePat '`' ['`', '`', 'c', 's', 'v']
      (['\n'] ++ (['`', '`', '`', 'c', 's', 'v'] ++ (['\n'] ++
      (['F', 'i', 'n', 'a', 'l', ' ', 'A', 'n', 's', 'w', 'e', 'r', ':'] ++ ([' '] ++
      (['\\', 'b', 'o', 'x', 'e', 'd', '\x7b'] ++ (row ++ (['\x7d'] ++ (['\n'] ++
      ['`', '`', '`']))))))))) =
      ['\n'] ++ (['\n'] ++
      (['F', 'i', 'n', 'a', 'l', ' ', 'A', 'n', 's', 'w', 'e', 'r', ':'] ++ ([' '] ++
      (['\\', 'b', 'o', 'x', 'e', 'd', '\x7b'] ++ (row ++ (['\x7d'] ++ (['\n'] ++
      ['`', '`', '`']))))))) := by
    rw [removePat_skip (show ∀ c ∈ ['\n'], c ≠ '`' by decide),
        removePat_hit,
        removePat_skip (show ∀ c ∈ ['\n'], c ≠ '`' by decide),
        removePat_skip (show ∀ c ∈
          ['F', 'i', 'n', 'a', 'l', ' ', 'A', 'n', 's', 'w', 'e', 'r', ':'],
          c ≠ '`' by decide),
        removePat_skip (show ∀ c ∈ [' '], c ≠ '`' by decide),
        removePat_skip (show ∀ c ∈ ['\\', 'b', 'o', 'x', 'e', 'd', '\x7b'],
          c ≠ '`' by decide),
        removePat_skip hbt,
        removePat_skip (show ∀ c ∈ ['\x7d'], c ≠ '`' by decide),
        removePat_skip (show ∀ c ∈ ['\n'], c ≠ '`' by decide),
        removePat_f6_on_f3]
  have h3 : removePat '`' ['`', '`']
      (['\n'] ++ (['\n'] ++
      (['F', 'i', 'n', 'a', 'l', ' ', 'A', 'n', 's', 'w', 'e', 'r', ':'] ++ ([' '] ++
      (['\\', 'b', 'o', 'x', 'e', 'd', '\x7b'] ++ (row ++ (['\x7d'] ++ (['\n'] ++
      ['`', '`', '`'])))))))) =
      ['\n'] ++ (['\n'] ++
      (['F', 'i', 'n', 'a', 'l', ' ', 'A', 'n', 's', 'w', 'e', 'r', ':'] ++ ([' '] ++
      (['\\', 'b', 'o', 'x', 'e', 'd', '\x7b'] ++ (row ++ (['\x7d'] ++ ['\n'])))))) := by
    rw [removePat_skip (show ∀ c ∈ ['\n'], c ≠ '`' by decide),
        removePat_skip (show ∀ c ∈ ['\n'], c ≠ '`' by decide),
        removePat_skip (show ∀ c ∈
          ['F', 'i', 'n', 'a', 'l', ' ', 'A', 'n', 's', 'w', 'e', 'r', ':'],
          c ≠ '`' by decide),
        removePat_skip (show ∀ c ∈ [' '], c ≠ '`' by decide),
        removePat_skip (show ∀ c ∈ ['\\', 'b', 'o', 'x', 'e', 'd', '\x7b'],
          c ≠ '`' by decide),
        removePat_skip hbt,
        removePat_skip (show ∀ c ∈ ['\x7d'], c ≠ '`' by decide),
        removePat_skip (show ∀ c ∈ ['\n'], c ≠ '`' by decide),
        removePat_f3_all, List.append_nil]
  have h4 : removeFinalAnswer
      (['\n'] ++ (['\n'] ++
      (['F', 'i', 'n', 'a', 'l', ' ', 'A', 'n', 's', 'w', 'e', 'r', ':'] ++ ([' '] ++
      (['\\', 'b', 'o', 'x', 'e', 'd', '\x7b'] ++ (row ++ (['\x7d'] ++ ['\n']))))))) =
      ['\n'] ++ (['\n'] ++
      (['\\', 'b', 'o', 'x', 'e', 'd', '\x7b'] ++ (row ++ (['\x7d'] ++ ['\n'])))) := by
    rw [removeFinalAnswer_skip (show ∀ c ∈ ['\n'], c.toLower ≠ 'f' by decide),
        removeFinalAnswer_skip (show ∀ c ∈ ['\n'], c.toLower ≠ 'f' by decide),
        removeFinalAnswer_hit,
        removeFinalAnswer_skip (show ∀ c ∈ ['\\', 'b', 'o', 'x', 'e', 'd', '\x7b'],
          c.toLower ≠ 'f' by decide),
        hasFA_false_id hfa]
  have h5 : removePat '\\' ['b', 'o', 'x', 'e', 'd', '\x7b']
      (['\n'] ++ (['\n'] ++
      (['\\', 'b', 'o', 'x', 'e', 'd', '\x7b'] ++ (row ++ (['\x7d'] ++ ['\n']))))) =
      ['\n'] ++ (['\n'] ++ (row ++ (['\x7d'] ++ ['\n']))) := by
    rw [removePat_skip (show ∀ c ∈ ['\n'], c ≠ '\\' by decide),
        removePat_skip (show ∀ c ∈ ['\n'], c ≠ '\\' by decide),
        removePat_hit,
        removePat_skip hbs,
        removePat_skip (show ∀ c ∈ ['\x7d'], c ≠ '\\' by decide),
        removePat_no_head (show ∀ c ∈ ['\n'], c ≠ '\\' by decide)]
  have h6 : removePat '\x7d' []
      (['\n'] ++ (['\n'] ++ (row ++ (['\x7d'] ++ ['\n'])))) =
      ['\n'] ++ (['\n'] ++ (row ++ ['\n'])) := by
    rw [removePat_skip (show ∀ c ∈ ['\n'], c ≠ '\x7d' by decide),
        removePat_skip (show ∀ c ∈ ['\n'], c ≠ '\x7d' by decide),
        removePat_skip hrb,
        removePat_hit,
        removePat_no_head (show ∀ c ∈ ['\n'], c ≠ '\x7d' by decide)]
  rw [cleanContent, h1, h2, h3, h4, h5, h6]


/-- C3: the normalization pipeline strips the reasoning block, the code
fence markers, the case-insensitive `Final Answer:` label and the boxed
wrapper, and returns the last non-blank line: a row wrapped in all four
artifacts (and itself free of them) comes back exactly; and a response
whose cleaned content has no non-blank line yields the original raw row
unchanged. -/
theorem ai_normalization_strips_artifacts (bad pad row bad2 raw : List Char)
    (hpad : ∀ c ∈ pad, c ≠ '<')
    (hlt : ∀ c ∈ row, c ≠ '<')
    (hbt : ∀ c ∈ row, c ≠ '`')
    (hbs : ∀ c ∈ row, c ≠ '\\')
    (hrb : ∀ c ∈ row, c ≠ '\x7d')
    (hnl : ∀ c ∈ row, c ≠ '\n')
    (hfa : hasFA (row ++ (['\x7d'] ++ ['\n'])) = false)
    (hstrip : pyStrip row = row)
    (hne : row ≠ [])
    (hraw : nonBlankLines (cleanContent raw) = []) :
    fix_ragged_row bad (Except.ok (wrapArtifacts pad row)) = row ∧
    fix_ragged_row bad2 (Except.ok raw) = bad2 := by
  constructor
  · have hclean := c3_clean_eval hpad hlt hbt hbs hrb hfa
    have hlines : nonBlankLines (['\n'] ++ (['\n'] ++ (row ++ ['\n']))) = [row] := by
      rw [nonBlankLines, List.singleton_append, List.singleton_append,
          splitNL_cons_newline, splitNL_cons_newline, splitNL_line hnl, splitNL_nil]
      have hrowne : row.isEmpty = false := by
        cases row with
        | nil => exact absurd rfl hne
        | cons a as => rfl
      simp [pyStrip_nil, hstrip, hrowne]
    simp only [fix_ragged_row]
    rw [hclean, hlines]
    rfl
  · simp only [fix_ragged_row, hraw]
    rfl

/-- C10: whenever the cleaned response still has a non-blank line, the
candidate row returned by `fix_ragged_row` contains no `\x7d` character:
step 4's `replace("\x7d", "")` deletes every closing brace, not only the
one closing the boxed wrapper, so legitimate braces in field content are
removed as well. -/
theorem ai_fixer_output_has_no_closing_brace (bad raw : List Char) (c : Char)
    (h : nonBlankLines (cleanContent raw) ≠ [])
    (hc : c ∈ fix_ragged_row bad (Except.ok raw)) : c ≠ '\x7d' := by
  cases hl : (nonBlankLines (cleanContent raw)).getLast? with
  | none => exact absurd (getLast_none_nil hl) h
  | some line =>
    have hfix : fix_ragged_row bad (Except.ok raw) = line := by
      simp only [fix_ragged_row, hl]
    rw [hfix] at hc
    have hmem : line ∈ nonBlankLines (cleanContent raw) := mem_of_getLast_some hl
    rw [nonBlankLines] at hmem
    have hmem2 := List.mem_filter.mp hmem
    obtain ⟨l0, hl0, hl0e⟩ := List.mem_map.mp hmem2.1
    have hfree : ∀ x ∈ cleanContent raw, x ≠ '\x7d' := by
      rw [cleanContent]
      exact removePat_rb_free _
    have hl0free : ∀ x ∈ l0, x ≠ '\x7d' := splitNL_char_free hfree l0 hl0
    rw [←hl0e] at hc
    exact hl0free c (pyStrip_subset c hc)


/-- Witness for C3 at the spec's scenario row `3,Cid,N/A`. -/
theorem ai_normalization_strips_artifacts_witness :
    (∀ c ∈ (['p', 'a', 'd'] : List Char), c ≠ '<') ∧
    (∀ c ∈ (['3', ',', 'C', 'i', 'd', ',', 'N', '/', 'A'] : List Char), c ≠ '<') ∧
    hasFA ((['3', ',', 'C', 'i', 'd', ',', 'N', '/', 'A'] : List Char) ++
      (['\x7d'] ++ ['\n'])) = false ∧
    pyStrip ['3', ',', 'C', 'i', 'd', ',', 'N', '/', 'A'] =
      ['3', ',', 'C', 'i', 'd', ',', 'N', '/', 'A'] ∧
    nonBlankLines (cleanContent ['\n']) = [] ∧
    (fix_ragged_row ['3', ',', 'C', 'i', 'd']
        (Except.ok (wrapArtifacts ['p', 'a', 'd']
          ['3', ',', 'C', 'i', 'd', ',', 'N', '/', 'A'])) =
      ['3', ',', 'C', 'i', 'd', ',', 'N', '/', 'A'] ∧
     fix_ragged_row ['o'] (Except.ok ['\n']) = ['o']) :=
  ⟨by decide, by decide, by decide, by decide,
   by simp [cleanContent, removeThink, removePat, removeFinalAnswer, leadsWith,
     matchCI, faPat, openThink, closeThink, findClose, nonBlankLines, splitNL,
     pyStrip, pyIsSpace],
   ai_normalization_strips_artifacts ['3', ',', 'C', 'i', 'd'] ['p', 'a', 'd']
     ['3', ',', 'C', 'i', 'd', ',', 'N', '/', 'A'] ['o'] ['\n']
     (by decide) (by decide) (by decide) (by decide) (by decide) (by decide)
     (by decide) (by decide) (by decide)
     (by simp [cleanContent, removeThink, removePat, removeFinalAnswer, leadsWith,
       matchCI, faPat, openThink, closeThink, findClose, nonBlankLines, splitNL,
       pyStrip, pyIsSpace])⟩

/-- Witness for C10: response `1,a\x7db` has a brace inside field content. -/
theorem ai_fixer_output_has_no_closing_brace_witness :
    nonBlankLines (cleanContent ['1', ',', 'a', '\x7d', 'b']) ≠ [] ∧
    'a' ∈ fix_ragged_row ['x'] (Except.ok ['1', ',', 'a', '\x7d', 'b']) ∧
    'a' ≠ '\x7d' :=
  ⟨by simp [cleanContent, removeThink, removePat, removeFinalAnswer, leadsWith,
     matchCI, faPat, openThink, closeThink, findClose, nonBlankLines, splitNL,
     pyStrip, pyIsSpace],
   by simp [fix_ragged_row, cleanContent, removeThink, removePat, removeFinalAnswer,
     leadsWith, matchCI, faPat, openThink, closeThink, findClose, nonBlankLines,
     splitNL, pyStrip, pyIsSpace],
   ai_fixer_output_has_no_closing_brace ['x'] ['1', ',', 'a', '\x7d', 'b'] 'a'
     (by simp [cleanContent, removeThink, removePat, removeFinalAnswer, leadsWith,
       matchCI, faPat, openThink, closeThink, findClose, nonBlankLines, splitNL,
       pyStrip, pyIsSpace])
     (by simp [fix_ragged_row, cleanContent, removeThink, removePat,
       removeFinalAnswer, leadsWith, matchCI, faPat, openThink, closeThink,
       findClose, nonBlankLines, splitNL, pyStrip, pyIsSpace])⟩

end DataCleaner

